import Mathlib

/-!
Verification of the reconciliation engine of the WhatsApp message
verification service (normalizer, similarity scorer, matcher, batch
coordinator, report aggregator) against its natural-language
specification.  The JavaScript sources are embedded shallowly:

* JS strings are Lean `String`s (lists of `Char`); the ASCII fragment of
  `toLowerCase`, `\w`, `\s` is modelled (all counterexamples and concrete
  inputs below are ASCII, where the model is exact).
* Nullable JS values are `Option`; a thrown `TypeError` is `none`.
* JS numbers used by the engine (similarity scores, rates) are exact
  rationals `ℚ`; `NaN`/`Infinity` from division by zero are made explicit
  by the `JSNum` type where the report needs them.
-/

/-- Model of the JS whitespace class `\s` (the ASCII part plus the common
control characters; every whitespace that appears in the development is the
plain space). Source: the regexes in `normalizeMessage`. -/
def isWS (c : Char) : Bool :=
  c = ' ' || c = '\t' || c = '\n' || c = '\r' || c = '\x0b' || c = '\x0c'

/-- Model of the JS word-character class `\w` = `[A-Za-z0-9_]`.
Source: the regex `/[^\w\s]/g` in `normalizeMessage`. -/
def isWordChar (c : Char) : Bool :=
  c.isAlphanum || c = '_'

/-- One step of `.replace(/\s+/g, ' ')`: the boolean records whether the
previous character was whitespace, so that a maximal whitespace run is
replaced by a single space. -/
def collapseAux : Bool → List Char → List Char
  | _, [] => []
  | prevWS, c :: cs =>
    if isWS c then
      if prevWS then collapseAux true cs else ' ' :: collapseAux true cs
    else
      c :: collapseAux false cs

/-- `.replace(/\s+/g, ' ')` on a list of characters. -/
def collapseWS (l : List Char) : List Char := collapseAux false l

/-- `.replace(/[^\w\s]/g, '')`: keep only word characters and whitespace. -/
def stripOther (l : List Char) : List Char :=
  l.filter (fun c => isWordChar c || isWS c)

/-- `.trim()`: drop leading and trailing whitespace. -/
def trimWS (l : List Char) : List Char :=
  ((l.dropWhile isWS).reverse.dropWhile isWS).reverse

/-- The character-list core of `normalizeMessage`:
`message.toLowerCase().replace(/\s+/g, ' ').replace(/[^\w\s]/g, '').trim()`.
Source: `messageMatcher.normalizeMessage`. -/
def normList (l : List Char) : List Char :=
  trimWS (stripOther (collapseWS (l.map Char.toLower)))

/-- `normalizeMessage` of the matcher, on proper strings.
Source: `messageMatcher.normalizeMessage`. -/
def normalizeMessage (s : String) : String :=
  ⟨normList s.data⟩

/-- `normalizeMessage` as called on an arbitrary JS value: the body starts
with `message.toLowerCase()`, which throws a `TypeError` when `message` is
`null`/`undefined`; a thrown call is modelled as `none`. -/
def normalizeMessageJS : Option String → Option String
  | none => none
  | some s => some (normalizeMessage s)

section ToLowerFacts

theorem char_toNat_ofNat_small {m : Nat} (h : m < 55296) :
    (Char.ofNat m).toNat = m := by
  have hv : m.isValidChar := Or.inl h
  simp [Char.ofNat, hv, Char.ofNatAux, Char.toNat, UInt32.toNat,
    BitVec.toNat_ofNatLt]

theorem toLower_toLower (c : Char) : c.toLower.toLower = c.toLower := by
  unfold Char.toLower
  by_cases h : c.toNat ≥ 65 ∧ c.toNat ≤ 90
  · have h32 : c.toNat + 32 < 55296 := by omega
    have ht : (Char.ofNat (c.toNat + 32)).toNat = c.toNat + 32 :=
      char_toNat_ofNat_small h32
    simp only [h, if_true, ht]
    have : ¬((Char.ofNat (c.toNat + 32)).toNat ≥ 65 ∧
        (Char.ofNat (c.toNat + 32)).toNat ≤ 90) := by
      rw [ht]; omega
    simp [this]
  · simp [h]

end ToLowerFacts

/-- Character bigrams of a list (adjacent pairs, with multiplicity). -/
def bigrams : List Char → List (Char × Char)
  | a :: b :: rest => (a, b) :: bigrams (b :: rest)
  | _ => []

/-- Removal of every whitespace character, the `replace(/\s+/g, '')`
preprocessing of the similarity measure. -/
def stripAllWS (l : List Char) : List Char := l.filter (fun c => !isWS c)

/-- Size of the multiset intersection of two bigram lists: the second list
is walked and each of its bigrams consumes at most one matching occurrence
from the first list (the count-map of the Dice coefficient). -/
def interCount : List (Char × Char) → List (Char × Char) → Nat
  | _, [] => 0
  | first, b :: rest =>
    if b ∈ first then interCount (first.erase b) rest + 1
    else interCount first rest

/-- Modelled from the spec: the similarity measure of §4.2 is provided by
the external `string-similarity` package (`compareTwoStrings`), which is
not under `src/`.  It is the Sørensen–Dice coefficient over character
bigrams: whitespace is removed from both strings, identical strings
(including both empty) score 1, strings shorter than two characters score
0, and otherwise the score is `2·|bigram intersection| / (|a| + |b| - 2)`,
bounded in `[0,1]`, symmetric, 1.0 on identical inputs and 0.0 when no
bigram is shared, as §4.2 prescribes.  The division is written `mkRat`;
in the branch where it is taken the denominator is at least 2, so this is
ordinary exact division (the lengths subtraction likewise stays in
`Nat` because both lengths are at least 2 there). -/
def compareTwoStrings (s1 s2 : String) : ℚ :=
  let first := stripAllWS s1.data
  let second := stripAllWS s2.data
  if first = second then 1
  else if first.length < 2 ∨ second.length < 2 then 0
  else mkRat (2 * (interCount (bigrams first) (bigrams second) : Int))
    (first.length + second.length - 2)

/-- `calculateSimilarity(dbMessage, apiMessage)`: the arguments are JS
values that may be `null` (`none`); `!x` is true for `null` and for the
empty string, in which case the score is 0; otherwise both messages are
normalized and compared.  Source: `messageMatcher.calculateSimilarity`. -/
def calculateSimilarity : Option String → Option String → ℚ
  | some d, some a =>
    if d = "" ∨ a = "" then 0
    else compareTwoStrings (normalizeMessage d) (normalizeMessage a)
  | _, _ => 0

/-- JS `x || y` on nullable strings: the empty string is falsy.
Source: `apiMsg.message || apiMsg.body` in the matcher. -/
def jsOrStr : Option String → Option String → Option String
  | some s, b => if s = "" then b else some s
  | none, b => b

/-- An internal record (`InternalMessageRecord`), with the fields the
matcher and the report read: `_id`, `message` (nullable), `phone_number`,
`sent_date` (epoch milliseconds), `role`, `type_of_message`. -/
structure DbMsg where
  id : Nat
  message : Option String
  phone_number : String
  sent_date : Int
  role : String
  type_of_message : String
deriving DecidableEq, Repr

/-- An external record (`ExternalMessageRecord`): the text may appear as
`message` or as `body`, the timestamp as `timestamp` with `sent_date` as
fallback (both read through JS `||`). -/
structure ApiMsg where
  message : Option String
  body : Option String
  timestamp : Option Int
  sent_date : Int
deriving DecidableEq, Repr

/-- `apiMsg.timestamp || apiMsg.sent_date`: a missing — or `0`-valued,
since `0` is falsy — `timestamp` falls back to `sent_date`. -/
def apiTs (a : ApiMsg) : Int :=
  match a.timestamp with
  | some t => if t = 0 then a.sent_date else t
  | none => a.sent_date

/-- `MESSAGE_TYPES.FIRST_MESSAGE = 'first_message'`.
Source: `src/config/constants.js` line 30 (the controller also queries
with the same literal, part_002 line 400). -/
def FIRST_MESSAGE : String := "first_message"

/-- `MATCHING.SIMILARITY_THRESHOLD = 0.90`.
Source: `src/config/constants.js` line 22. -/
def SIMILARITY_THRESHOLD : ℚ := mkRat 9 10

/-- `MATCHING.BATCH_SIZE = 100`.
Source: `src/config/constants.js` line 24. -/
def BATCH_SIZE : Nat := 100

/-- A `Matched` outcome: the internal record, the position (`bestIndex`)
of the consumed external record in the pool, the projected external fields
(`bestMatch.message || bestMatch.body`, `bestMatch.timestamp ||
bestMatch.sent_date`), and the confidence score.  `apiIndex` is the
`bestIndex` the code adds to `matchedApiIndices`; the derived
`similarityPercentage` string is omitted as redundant with
`confidenceScore`. -/
structure MatchedOutcome where
  db : DbMsg
  apiIndex : Nat
  apiMessage : Option String
  apiTimestamp : Int
  confidenceScore : ℚ
deriving DecidableEq, Repr

/-- An `Unmatched` outcome: the internal record, the `bestMatchScore` and
the reason string (`'Below similarity threshold'` is the spec's
`below_threshold` tag, `'No matching message found'` its `no_candidate`
tag). -/
structure UnmatchedOutcome where
  db : DbMsg
  bestMatchScore : ℚ
  reason : String
deriving DecidableEq, Repr

/-- The nested `firstMessageStats` counters. -/
structure FirstMessageStats where
  total : Nat
  matched : Nat
  unmatched : Nat
deriving DecidableEq, Repr

/-- `results.statistics`.  `averageConfidencePct` holds the numeric value
`totalConfidence / matched.length * 100` (the code renders it with
`toFixed(2) + '%'`; it stays 0 when nothing matched). -/
structure MatchStatistics where
  totalDbMessages : Nat
  totalApiMessages : Nat
  matchedCount : Nat
  unmatchedCount : Nat
  averageConfidencePct : ℚ
  firstMessageStats : FirstMessageStats
deriving DecidableEq, Repr

/-- The value returned by `matchMessages` / `batchMatchMessages`. -/
structure MatchResults where
  matched : List MatchedOutcome
  unmatched : List UnmatchedOutcome
  statistics : MatchStatistics
deriving DecidableEq, Repr

/-- The inner candidate scan of `matchMessages` (the `for (let i ...)`
loop): walk the indexed pool, skip indices already in `matchedApiIndices`
(`consumed`), skip candidates whose timestamp is strictly before the
internal record's (`if (dbDate > apiDate) continue`), and keep the
candidate when `similarity > bestScore && similarity >=`
the threshold.  The accumulator `(best, bestScore)` starts at
`(none, 0)`. -/
def scanBest (threshold : ℚ) (db : DbMsg) :
    List (Nat × ApiMsg) → List Nat → Option (Nat × ApiMsg) → ℚ →
    Option (Nat × ApiMsg) × ℚ
  | [], _, best, bestScore => (best, bestScore)
  | (i, a) :: rest, consumed, best, bestScore =>
    if i ∈ consumed then scanBest threshold db rest consumed best bestScore
    else if db.sent_date > apiTs a then
      scanBest threshold db rest consumed best bestScore
    else
      let s := calculateSimilarity db.message (jsOrStr a.message a.body)
      if s > bestScore ∧ s ≥ threshold then
        scanBest threshold db rest consumed (some (i, a)) s
      else scanBest threshold db rest consumed best bestScore

/-- The state threaded through the `for (const dbMsg of dbMessages)` loop
of `matchMessages`. -/
structure MatchState where
  consumed : List Nat
  matched : List MatchedOutcome
  unmatched : List UnmatchedOutcome
  matchedCount : Nat
  unmatchedCount : Nat
  firstStats : FirstMessageStats
deriving DecidableEq, Repr

/-- One iteration of the outer loop of `matchMessages`: bump the
first-message total, scan for the best candidate, and either emit a
`Matched` outcome (consuming the index) or an `Unmatched` outcome whose
reason is `'Below similarity threshold'` when `bestScore > 0` and
`'No matching message found'` otherwise. -/
def processDb (threshold : ℚ) (pool : List (Nat × ApiMsg))
    (st : MatchState) (db : DbMsg) : MatchState :=
  let fs0 := st.firstStats
  let isFirst := db.type_of_message = FIRST_MESSAGE
  let fs1 : FirstMessageStats :=
    { fs0 with total := if isFirst then fs0.total + 1 else fs0.total }
  match scanBest threshold db pool st.consumed none 0 with
  | (some (i, a), s) =>
    if s ≥ threshold then
      { st with
        consumed := i :: st.consumed
        matched := st.matched ++
          [{ db := db, apiIndex := i, apiMessage := jsOrStr a.message a.body,
             apiTimestamp := apiTs a, confidenceScore := s }]
        matchedCount := st.matchedCount + 1
        firstStats :=
          { fs1 with matched := if isFirst then fs1.matched + 1 else fs1.matched } }
    else
      { st with
        unmatched := st.unmatched ++
          [{ db := db, bestMatchScore := s,
             reason := if s > 0 then "Below similarity threshold"
               else "No matching message found" }]
        unmatchedCount := st.unmatchedCount + 1
        firstStats :=
          { fs1 with unmatched := if isFirst then fs1.unmatched + 1 else fs1.unmatched } }
  | (none, s) =>
    { st with
      unmatched := st.unmatched ++
        [{ db := db, bestMatchScore := s,
           reason := if s > 0 then "Below similarity threshold"
             else "No matching message found" }]
      unmatchedCount := st.unmatchedCount + 1
      firstStats :=
        { fs1 with unmatched := if isFirst then fs1.unmatched + 1 else fs1.unmatched } }

/-- The average-confidence statistic: `totalConfidence / matched.length *
100` when anything matched, otherwise the initial `0`. -/
def averageConfidencePct (matched : List MatchedOutcome) : ℚ :=
  if matched.length = 0 then 0
  else (matched.map (·.confidenceScore)).sum / (matched.length : ℚ) * 100

/-- `matchMessages(dbMessages, apiMessages)` with the similarity threshold
as an explicit parameter (the source reads the module constant
`MATCHING.SIMILARITY_THRESHOLD`; see `matchMessages`).
Source: `messageMatcher.matchMessages`. -/
def matchMessagesT (threshold : ℚ) (dbMessages : List DbMsg)
    (apiMessages : List ApiMsg) : MatchResults :=
  let pool := apiMessages.enum
  let st0 : MatchState :=
    { consumed := [], matched := [], unmatched := [],
      matchedCount := 0, unmatchedCount := 0,
      firstStats := { total := 0, matched := 0, unmatched := 0 } }
  let st := dbMessages.foldl (processDb threshold pool) st0
  { matched := st.matched
    unmatched := st.unmatched
    statistics :=
      { totalDbMessages := dbMessages.length
        totalApiMessages := apiMessages.length
        matchedCount := st.matchedCount
        unmatchedCount := st.unmatchedCount
        averageConfidencePct := averageConfidencePct st.matched
        firstMessageStats := st.firstStats } }

/-- `matchMessages` exactly as in the source, at the configured
`MATCHING.SIMILARITY_THRESHOLD`. -/
def matchMessages (dbMessages : List DbMsg) (apiMessages : List ApiMsg) :
    MatchResults :=
  matchMessagesT SIMILARITY_THRESHOLD dbMessages apiMessages

/-- The batch slicing of `batchMatchMessages`: the JS loop
`for (let i = 0; i < dbMessages.length; i += batchSize)` takes
`dbMessages.slice(i, i + batchSize)` each round.  The loop is modelled
with explicit fuel (one unit per iteration); with `batchSize ≥ 1` the
loop runs at most `dbMessages.length` iterations, so that much fuel
always completes it (the termination theorem below). -/
def chunksF (fuel : Nat) (batchSize : Nat) (l : List DbMsg) :
    List (List DbMsg) :=
  match fuel with
  | 0 => []
  | fuel + 1 =>
    if l.isEmpty then []
    else l.take batchSize :: chunksF fuel batchSize (l.drop batchSize)

/-- Merging of one batch's results into `allResults` (list concatenation
and statistics sums; the average confidence is recomputed afterwards). -/
def mergeResults (acc : MatchResults) (r : MatchResults) : MatchResults :=
  { matched := acc.matched ++ r.matched
    unmatched := acc.unmatched ++ r.unmatched
    statistics :=
      { acc.statistics with
        matchedCount := acc.statistics.matchedCount + r.statistics.matchedCount
        unmatchedCount := acc.statistics.unmatchedCount + r.statistics.unmatchedCount
        firstMessageStats :=
          { total := acc.statistics.firstMessageStats.total +
              r.statistics.firstMessageStats.total
            matched := acc.statistics.firstMessageStats.matched +
              r.statistics.firstMessageStats.matched
            unmatched := acc.statistics.firstMessageStats.unmatched +
              r.statistics.firstMessageStats.unmatched } } }

/-- `batchMatchMessages` with explicit threshold, batch size and loop
fuel: slice the internal records, run `matchMessages` per batch against
the full external pool, merge, and recompute the overall average
confidence from the full matched list. -/
def batchMatchFuel (threshold : ℚ) (batchSize fuel : Nat)
    (dbMessages : List DbMsg) (apiMessages : List ApiMsg) : MatchResults :=
  let r0 : MatchResults :=
    { matched := [], unmatched := [],
      statistics :=
        { totalDbMessages := dbMessages.length
          totalApiMessages := apiMessages.length
          matchedCount := 0, unmatchedCount := 0
          averageConfidencePct := 0
          firstMessageStats := { total := 0, matched := 0, unmatched := 0 } } }
  let merged := (chunksF fuel batchSize dbMessages).foldl
    (fun acc batch => mergeResults acc (matchMessagesT threshold batch apiMessages)) r0
  { merged with
    statistics :=
      { merged.statistics with
        averageConfidencePct := averageConfidencePct merged.matched } }

/-- `batchMatchMessages(dbMessages, apiMessages, batchSize)` with the
threshold as explicit parameter, at the sufficient fuel
`dbMessages.length`.  Source: `messageMatcher.batchMatchMessages`. -/
def batchMatchMessagesT (threshold : ℚ) (batchSize : Nat)
    (dbMessages : List DbMsg) (apiMessages : List ApiMsg) : MatchResults :=
  batchMatchFuel threshold batchSize dbMessages.length dbMessages apiMessages

/-- `batchMatchMessages` as called by the verification service: default
batch size, configured similarity threshold. -/
def batchMatchMessages (dbMessages : List DbMsg)
    (apiMessages : List ApiMsg) : MatchResults :=
  batchMatchMessagesT SIMILARITY_THRESHOLD BATCH_SIZE dbMessages apiMessages

/-- JS numbers at the points where the report can divide by zero:
`nan` and `inf` make `0/0` and `x/0` explicit. -/
inductive JSNum where
  | nan
  | inf
  | num (q : ℚ)
deriving DecidableEq, Repr

/-- JS division for the report's nonnegative operands: `0/0` is `NaN`,
`x/0` with `x ≠ 0` is `Infinity`, otherwise exact. -/
def jsDiv (a b : ℚ) : JSNum :=
  if b = 0 then (if a = 0 then JSNum.nan else JSNum.inf) else JSNum.num (a / b)

/-- JS multiplication of such a number by a positive rational constant. -/
def jsMulPos (n : JSNum) (q : ℚ) : JSNum :=
  match n with
  | JSNum.nan => JSNum.nan
  | JSNum.inf => JSNum.inf
  | JSNum.num a => JSNum.num (a * q)

/-- Decimal rendering of a nonnegative rational with two fractional
digits, the `toFixed(2)` of the report's percentage values (rounding half
away from zero, as `toFixed` does for these magnitudes). -/
def ratToFixed2 (q : ℚ) : String :=
  let c : Nat := (⌊q * 100 + 1 / 2⌋).toNat
  let ip : Nat := c / 100
  let fp : Nat := c % 100
  toString ip ++ "." ++ (if fp < 10 then "0" ++ toString fp else toString fp)

/-- `toFixed(2)` on a possibly non-finite JS number: `NaN.toFixed(2)` is
the string `"NaN"` and `Infinity.toFixed(2)` is `"Infinity"`. -/
def jsToFixed2 : JSNum → String
  | JSNum.nan => "NaN"
  | JSNum.inf => "Infinity"
  | JSNum.num q => ratToFixed2 q

/-- The report's match rate,
`((matchedCount / totalDbMessages) * 100).toFixed(2) + '%'` — written
without a zero-total guard.
Source: `generateVerificationReport` (part_001 line 253). -/
def matchRateString (matchedCount totalDbMessages : Nat) : String :=
  jsToFixed2 (jsMulPos (jsDiv (matchedCount : ℚ) (totalDbMessages : ℚ)) 100) ++ "%"

/-- The report's first-message unmatched rate, which does carry the guard:
`total > 0 ? ((unmatched / total) * 100).toFixed(2) + '%' : '0%'`.
Source: `generateVerificationReport` (part_001 lines 259-261). -/
def unmatchedRateString (unmatched total : Nat) : String :=
  if 0 < total then
    jsToFixed2 (jsMulPos (jsDiv (unmatched : ℚ) (total : ℚ)) 100) ++ "%"
  else "0%"

/-- The summary block of `generateVerificationReport`, restricted to the
numeric and rate fields (the period and phone-number echo fields are
caller input passed through verbatim). -/
structure ReportSummary where
  totalMessagesInDB : Nat
  totalMessagesInAPI : Nat
  matchedMessages : Nat
  unmatchedMessages : Nat
  matchRate : String
  firstTotal : Nat
  firstMatched : Nat
  firstUnmatched : Nat
  firstUnmatchedRate : String
deriving DecidableEq, Repr

/-- `generateVerificationReport(matchResults, ...)`, summary block.
Source: `verificationService.generateVerificationReport`. -/
def generateVerificationReport (r : MatchResults) : ReportSummary :=
  { totalMessagesInDB := r.statistics.totalDbMessages
    totalMessagesInAPI := r.statistics.totalApiMessages
    matchedMessages := r.statistics.matchedCount
    unmatchedMessages := r.statistics.unmatchedCount
    matchRate := matchRateString r.statistics.matchedCount
      r.statistics.totalDbMessages
    firstTotal := r.statistics.firstMessageStats.total
    firstMatched := r.statistics.firstMessageStats.matched
    firstUnmatched := r.statistics.firstMessageStats.unmatched
    firstUnmatchedRate := unmatchedRateString
      r.statistics.firstMessageStats.unmatched
      r.statistics.firstMessageStats.total }

/-- The verification request fields that reach the matching step.  The
controller validates `matchingThreshold` into `[0.9, 1]` and the service
destructures it — but then calls
`messageMatcher.batchMatchMessages(dbMessages, allApiMessages)` without
passing it, so matching runs at the module constant regardless.
Source: `verificationService.verifyMessages` (part_001 lines 12-62). -/
structure VerifyParams where
  matchingThreshold : ℚ
deriving DecidableEq, Repr

/-- The pure matching-and-reporting core of
`verificationService.verifyMessages`, after the two record sets have been
fetched: step 5 (`batchMatchMessages(dbMessages, allApiMessages)` — note
the absent threshold argument) and step 6 (the report).  The
`matchingThreshold` of `p` is dropped exactly as the source drops it. -/
def verifyMessagesCore (_p : VerifyParams) (dbMessages : List DbMsg)
    (apiMessages : List ApiMsg) : MatchResults × ReportSummary :=
  let r := batchMatchMessages dbMessages apiMessages
  (r, generateVerificationReport r)

section MatcherLemmas

variable {t : ℚ} {db : DbMsg} {c : List Nat}

/-- If the candidate scan ends with no best match, the accumulator was
already empty and the best score is untouched (the code only ever updates
`bestScore` together with `bestMatch`). -/
theorem scanBest_none :
    ∀ (l : List (Nat × ApiMsg)) (b : Option (Nat × ApiMsg)) (s0 : ℚ),
      (scanBest t db l c b s0).1 = none →
      b = none ∧ (scanBest t db l c b s0).2 = s0 := by
  intro l
  induction l with
  | nil => exact fun b s0 h => ⟨h, rfl⟩
  | cons hd rest ih =>
    intro b s0 h
    obtain ⟨i, a⟩ := hd
    rw [scanBest] at h ⊢
    by_cases h1 : i ∈ c
    · rw [if_pos h1] at h ⊢; exact ih b s0 h
    · rw [if_neg h1] at h ⊢
      by_cases h2 : db.sent_date > apiTs a
      · rw [if_pos h2] at h ⊢; exact ih b s0 h
      · rw [if_neg h2] at h ⊢
        by_cases h3 :
            calculateSimilarity db.message (jsOrStr a.message a.body) > s0 ∧
            calculateSimilarity db.message (jsOrStr a.message a.body) ≥ t
        · rw [if_pos h3] at h ⊢
          exact absurd (ih _ _ h).1 (by simp)
        · rw [if_neg h3] at h ⊢; exact ih b s0 h

/-- Any property that holds of the initial accumulator and of every
candidate that survives the consumption and temporal checks holds of the
scan's final best match and score. -/
theorem scanBest_some_inv (P : Nat → ApiMsg → ℚ → Prop) :
    ∀ (l : List (Nat × ApiMsg)) (b : Option (Nat × ApiMsg)) (s0 : ℚ),
      (∀ i a, b = some (i, a) → P i a s0) →
      (∀ i a, (i, a) ∈ l → i ∉ c → db.sent_date ≤ apiTs a →
        P i a (calculateSimilarity db.message (jsOrStr a.message a.body))) →
      ∀ i a s, scanBest t db l c b s0 = (some (i, a), s) → P i a s := by
  intro l
  induction l with
  | nil =>
    intro b s0 hb _ i a s h
    rw [scanBest] at h
    have h1 : b = some (i, a) := congrArg Prod.fst h
    have h2 : s0 = s := congrArg Prod.snd h
    exact h2 ▸ hb i a h1
  | cons hd rest ih =>
    intro b s0 hb hstep i a s h
    obtain ⟨j, x⟩ := hd
    rw [scanBest] at h
    by_cases h1 : j ∈ c
    · rw [if_pos h1] at h
      exact ih b s0 hb (fun i' a' hm => hstep i' a' (List.mem_cons_of_mem _ hm)) i a s h
    · rw [if_neg h1] at h
      by_cases h2 : db.sent_date > apiTs x
      · rw [if_pos h2] at h
        exact ih b s0 hb (fun i' a' hm => hstep i' a' (List.mem_cons_of_mem _ hm)) i a s h
      · rw [if_neg h2] at h
        by_cases h3 :
            calculateSimilarity db.message (jsOrStr x.message x.body) > s0 ∧
            calculateSimilarity db.message (jsOrStr x.message x.body) ≥ t
        · rw [if_pos h3] at h
          have hjx : P j x (calculateSimilarity db.message (jsOrStr x.message x.body)) :=
            hstep j x (List.mem_cons_self _ _) h1 (not_lt.mp h2)
          refine ih _ _ ?_ (fun i' a' hm => hstep i' a' (List.mem_cons_of_mem _ hm)) i a s h
          intro i' a' he
          obtain ⟨rfl, rfl⟩ := Prod.mk.injEq .. |>.mp (Option.some.inj he.symm)
          exact hjx
        · rw [if_neg h3] at h
          exact ih b s0 hb (fun i' a' hm => hstep i' a' (List.mem_cons_of_mem _ hm)) i a s h

end MatcherLemmas

section StepLemmas

variable {t : ℚ} {P : List (Nat × ApiMsg)}

/-- Each iteration of the outer matching loop appends exactly one outcome:
either a `Matched` outcome built from the scan's best candidate (consuming
its index) or an `Unmatched` outcome carrying the final `bestScore`. -/
theorem processDb_step (st : MatchState) (db : DbMsg) :
    (∃ i a s, scanBest t db P st.consumed none 0 = (some (i, a), s) ∧ s ≥ t ∧
      (processDb t P st db).matched = st.matched ++
        [{ db := db, apiIndex := i, apiMessage := jsOrStr a.message a.body,
           apiTimestamp := apiTs a, confidenceScore := s }] ∧
      (processDb t P st db).unmatched = st.unmatched ∧
      (processDb t P st db).consumed = i :: st.consumed) ∨
    (∃ s, (processDb t P st db).matched = st.matched ∧
      (processDb t P st db).unmatched = st.unmatched ++
        [{ db := db, bestMatchScore := s,
           reason := if s > 0 then "Below similarity threshold"
             else "No matching message found" }] ∧
      (processDb t P st db).consumed = st.consumed) := by
  rcases hsb : scanBest t db P st.consumed none 0 with ⟨b, s⟩
  cases b with
  | none =>
    right
    exact ⟨s, by simp only [processDb, hsb], by simp only [processDb, hsb],
      by simp only [processDb, hsb]⟩
  | some p =>
    obtain ⟨i, a⟩ := p
    by_cases hth : s ≥ t
    · left
      refine ⟨i, a, s, rfl, hth, ?_, ?_, ?_⟩ <;>
        simp only [processDb, hsb, if_pos hth]
    · right
      refine ⟨s, ?_, ?_, ?_⟩ <;> simp only [processDb, hsb, if_neg hth]

/-- Outcomes already recorded persist through the rest of the loop. -/
theorem foldl_unmatched_mono :
    ∀ (dbs : List DbMsg) (st : MatchState) (u : UnmatchedOutcome),
      u ∈ st.unmatched → u ∈ (dbs.foldl (processDb t P) st).unmatched := by
  intro dbs
  induction dbs with
  | nil => exact fun st u h => h
  | cons d rest ih =>
    intro st u h
    rw [List.foldl_cons]
    refine ih _ u ?_
    rcases processDb_step (t := t) (P := P) st d with
      ⟨i, a, s, _, _, _, hu, _⟩ | ⟨s, _, hu, _⟩
    · rw [hu]; exact h
    · rw [hu]; exact List.mem_append_left _ h

end StepLemmas

section FoldInvariants

variable {t : ℚ} {P : List (Nat × ApiMsg)}

/-- The consumption invariant of the outer loop: the matched external
indices are pairwise distinct and all recorded in `matchedApiIndices`. -/
theorem foldl_consumed_inv :
    ∀ (dbs : List DbMsg) (st : MatchState),
      (st.matched.map (·.apiIndex)).Nodup →
      (∀ i ∈ st.matched.map (·.apiIndex), i ∈ st.consumed) →
      ((dbs.foldl (processDb t P) st).matched.map (·.apiIndex)).Nodup ∧
      ∀ i ∈ (dbs.foldl (processDb t P) st).matched.map (·.apiIndex),
        i ∈ (dbs.foldl (processDb t P) st).consumed := by
  intro dbs
  induction dbs with
  | nil => exact fun st h1 h2 => ⟨h1, h2⟩
  | cons d rest ih =>
    intro st h1 h2
    rw [List.foldl_cons]
    rcases processDb_step (t := t) (P := P) st d with
      ⟨i, a, s, hsb, _, hm, _, hc⟩ | ⟨s, hm, _, hc⟩
    · have hni : i ∉ st.consumed := by
        refine scanBest_some_inv (fun i' a' s' => i' ∉ st.consumed) P none 0
          (fun i' a' h => by cases h) (fun i' a' _ hni _ => hni) i a s hsb
      refine ih _ ?_ ?_
      · rw [hm, List.map_append, List.nodup_append]
        refine ⟨h1, by simp, ?_⟩
        intro j hj hj'
        simp only [List.map_cons, List.map_nil, List.mem_singleton] at hj'
        subst hj'
        exact hni (h2 j hj)
      · intro j hj
        rw [hm, List.map_append] at hj
        rw [hc]
        rcases List.mem_append.mp hj with hj | hj
        · exact List.mem_cons_of_mem _ (h2 j hj)
        · simp only [List.map_cons, List.map_nil, List.mem_singleton] at hj
          subst hj
          exact List.mem_cons_self _ _
    · refine ih _ (by rw [hm]; exact h1) ?_
      intro j hj
      rw [hm] at hj
      rw [hc]
      exact h2 j hj

/-- The internal records of the outcomes accumulated by the loop: each
processed record contributes itself exactly once, to one of the two
lists. -/
theorem foldl_outcome_dbs :
    ∀ (dbs : List DbMsg) (st : MatchState),
      (((dbs.foldl (processDb t P) st).matched.map (·.db) : Multiset DbMsg) +
        ((dbs.foldl (processDb t P) st).unmatched.map (·.db) : Multiset DbMsg)) =
      ((st.matched.map (·.db) : Multiset DbMsg) +
        (st.unmatched.map (·.db) : Multiset DbMsg)) + (dbs : Multiset DbMsg) := by
  intro dbs
  induction dbs with
  | nil => intro st; simp
  | cons d rest ih =>
    intro st
    rw [List.foldl_cons, ih]
    rcases processDb_step (t := t) (P := P) st d with
      ⟨i, a, s, _, _, hm, hu, _⟩ | ⟨s, hm, hu, _⟩ <;>
    · rw [hm, hu]
      simp only [List.map_append, List.map_cons, List.map_nil]
      rw [← Multiset.coe_add, Multiset.coe_singleton, ← Multiset.cons_coe,
        ← Multiset.singleton_add]
      abel

/-- Matched outcomes never pair an internal record with an external record
whose (resolved) timestamp is strictly earlier. -/
theorem foldl_matched_temporal :
    ∀ (dbs : List DbMsg) (st : MatchState),
      (∀ m ∈ st.matched, m.db.sent_date ≤ m.apiTimestamp) →
      ∀ m ∈ (dbs.foldl (processDb t P) st).matched,
        m.db.sent_date ≤ m.apiTimestamp := by
  intro dbs
  induction dbs with
  | nil => exact fun st h => h
  | cons d rest ih =>
    intro st h
    rw [List.foldl_cons]
    rcases processDb_step (t := t) (P := P) st d with
      ⟨i, a, s, hsb, _, hm, _, _⟩ | ⟨s, hm, _, _⟩
    · refine ih _ ?_
      intro m hm'
      rw [hm] at hm'
      rcases List.mem_append.mp hm' with h' | h'
      · exact h m h'
      · have hle : d.sent_date ≤ apiTs a := by
          refine scanBest_some_inv (fun i' a' s' => d.sent_date ≤ apiTs a') P none 0
            (fun i' a' hx => by cases hx) (fun i' a' _ _ hle => hle) i a s hsb
        simp only [List.mem_singleton] at h'
        subst h'
        exact hle
    · exact ih _ (by rw [hm]; exact h)

end FoldInvariants

section MatcherTop

variable {t : ℚ}

/-- Per-batch consumption: the matched external indices of one
`matchMessages` run are pairwise distinct. -/
theorem matchMessagesT_nodup (dbs : List DbMsg) (api : List ApiMsg) :
    ((matchMessagesT t dbs api).matched.map (·.apiIndex)).Nodup := by
  have h := foldl_consumed_inv (t := t) (P := api.enum) dbs
    { consumed := [], matched := [], unmatched := [],
      matchedCount := 0, unmatchedCount := 0,
      firstStats := { total := 0, matched := 0, unmatched := 0 } }
    (by simp) (by simp)
  exact h.1

/-- Per-batch totality: the internal records of the outcomes of one
`matchMessages` run are exactly the input batch, as a multiset. -/
theorem matchMessagesT_outcomes (dbs : List DbMsg) (api : List ApiMsg) :
    (((matchMessagesT t dbs api).matched.map (·.db) : Multiset DbMsg) +
      ((matchMessagesT t dbs api).unmatched.map (·.db) : Multiset DbMsg)) =
      (dbs : Multiset DbMsg) := by
  have h := foldl_outcome_dbs (t := t) (P := api.enum) dbs
    { consumed := [], matched := [], unmatched := [],
      matchedCount := 0, unmatchedCount := 0,
      firstStats := { total := 0, matched := 0, unmatched := 0 } }
  simpa using h

/-- Per-batch count: `matched` and `unmatched` lengths sum to the batch
size. -/
theorem matchMessagesT_length (dbs : List DbMsg) (api : List ApiMsg) :
    (matchMessagesT t dbs api).matched.length +
      (matchMessagesT t dbs api).unmatched.length = dbs.length := by
  have h := congrArg Multiset.card (matchMessagesT_outcomes (t := t) dbs api)
  simpa using h

/-- Per-batch temporal safety: no matched outcome pairs an internal record
with a strictly earlier external record. -/
theorem matchMessagesT_temporal (dbs : List DbMsg) (api : List ApiMsg) :
    ∀ m ∈ (matchMessagesT t dbs api).matched,
      m.db.sent_date ≤ m.apiTimestamp := by
  exact foldl_matched_temporal (t := t) (P := api.enum) dbs _ (by simp)

/-- A record whose timestamp is strictly after every candidate makes the
scan return the untouched accumulator `(none, 0)`. -/
theorem scanBest_all_early {db : DbMsg} {c : List Nat}
    (l : List (Nat × ApiMsg))
    (h : ∀ p ∈ l, db.sent_date > apiTs p.2) :
    scanBest t db l c none 0 = (none, 0) := by
  induction l with
  | nil => rw [scanBest]
  | cons hd rest ih =>
    obtain ⟨i, a⟩ := hd
    rw [scanBest]
    by_cases h1 : i ∈ c
    · rw [if_pos h1]
      exact ih (fun p hp => h p (List.mem_cons_of_mem _ hp))
    · rw [if_neg h1, if_pos (h (i, a) (List.mem_cons_self _ _))]
      exact ih (fun p hp => h p (List.mem_cons_of_mem _ hp))

/-- A record that is strictly later than the whole pool always becomes an
`Unmatched` outcome with best score 0 and the no-candidate reason. -/
theorem matchMessagesT_all_early (dbs : List DbMsg) (api : List ApiMsg)
    (d : DbMsg) (hd : d ∈ dbs) (h : ∀ a ∈ api, apiTs a < d.sent_date) :
    ∃ u ∈ (matchMessagesT t dbs api).unmatched,
      u.db = d ∧ u.bestMatchScore = 0 ∧
      u.reason = "No matching message found" := by
  have hpool : ∀ p ∈ api.enum, d.sent_date > apiTs p.2 := by
    intro p hp
    have hg : api[p.1]? = some p.2 := List.mem_enum_iff_getElem?.mp hp
    exact h p.2 (List.getElem?_mem hg)
  suffices hgen : ∀ (l : List DbMsg) (st : MatchState), d ∈ l →
      ∃ u ∈ (l.foldl (processDb t api.enum) st).unmatched,
        u.db = d ∧ u.bestMatchScore = 0 ∧
        u.reason = "No matching message found" by
    exact hgen dbs _ hd
  intro l
  induction l with
  | nil => intro st hmem; cases hmem
  | cons x rest ih =>
    intro st hmem
    rw [List.foldl_cons]
    rcases List.mem_cons.mp hmem with rfl | hmem
    · have hsb : scanBest t d api.enum st.consumed none 0 = (none, 0) :=
        scanBest_all_early _ hpool
      have hu : (processDb t api.enum st d).unmatched = st.unmatched ++
          [⟨d, 0, "No matching message found"⟩] := by
        simp only [processDb, hsb]
        norm_num
      refine ⟨⟨d, 0, "No matching message found"⟩, ?_, rfl, rfl, rfl⟩
      refine foldl_unmatched_mono rest _ _ ?_
      rw [hu]
      exact List.mem_append_right _ (List.mem_singleton.mpr rfl)
    · exact ih _ hmem

end MatcherTop

section BatchLemmas

variable {t : ℚ}

theorem chunksF_nil (fuel bs : Nat) : chunksF fuel bs [] = [] := by
  cases fuel <;> simp [chunksF]

/-- Termination of the batch loop: once the fuel covers the list length,
the slicing no longer depends on it (with `batchSize ≥ 1` the loop
advances and finishes within `length` iterations). -/
theorem chunksF_stable {bs : Nat} (hbs : 1 ≤ bs) :
    ∀ (fuel : Nat) (l : List DbMsg) (fuel' : Nat),
      l.length ≤ fuel → l.length ≤ fuel' →
      chunksF fuel bs l = chunksF fuel' bs l := by
  intro fuel
  induction fuel with
  | zero =>
    intro l fuel' h _
    have : l = [] := List.eq_nil_of_length_eq_zero (Nat.le_zero.mp h)
    subst this
    rw [chunksF_nil, chunksF_nil]
  | succ fuel ih =>
    intro l fuel' h h'
    cases l with
    | nil => rw [chunksF_nil, chunksF_nil]
    | cons x xs =>
      have hlen : (x :: xs).length ≥ 1 := by simp
      cases fuel' with
      | zero => omega
      | succ f' =>
        rw [chunksF, chunksF]
        simp only [List.isEmpty_cons, if_false, Bool.false_eq_true]
        have hdrop : ((x :: xs).drop bs).length ≤ fuel := by
          rw [List.length_drop]
          simp only [List.length_cons] at h ⊢
          omega
        have hdrop' : ((x :: xs).drop bs).length ≤ f' := by
          rw [List.length_drop]
          simp only [List.length_cons] at h' ⊢
          omega
        rw [ih _ f' hdrop hdrop']

/-- Each internal record lands in exactly one batch: the slices
concatenate back to the input list. -/
theorem chunksF_join {bs : Nat} (hbs : 1 ≤ bs) :
    ∀ (fuel : Nat) (l : List DbMsg), l.length ≤ fuel →
      (chunksF fuel bs l).flatten = l := by
  intro fuel
  induction fuel with
  | zero =>
    intro l h
    have : l = [] := List.eq_nil_of_length_eq_zero (Nat.le_zero.mp h)
    subst this
    rw [chunksF_nil, List.flatten_nil]
  | succ fuel ih =>
    intro l h
    cases l with
    | nil => rw [chunksF_nil, List.flatten_nil]
    | cons x xs =>
      rw [chunksF]
      simp only [List.isEmpty_cons, if_false, Bool.false_eq_true]
      rw [List.flatten_cons]
      have hdrop : ((x :: xs).drop bs).length ≤ fuel := by
        rw [List.length_drop]
        simp only [List.length_cons] at h ⊢
        omega
      rw [ih _ hdrop, List.take_append_drop]

/-- The matched and unmatched lists of the merged result are the
concatenations of the per-batch lists. -/
theorem batchFold_lists (api : List ApiMsg) :
    ∀ (chunks : List (List DbMsg)) (acc : MatchResults),
      ((chunks.foldl
        (fun a b => mergeResults a (matchMessagesT t b api)) acc).matched =
        acc.matched ++ (chunks.map
          (fun b => (matchMessagesT t b api).matched)).flatten) ∧
      ((chunks.foldl
        (fun a b => mergeResults a (matchMessagesT t b api)) acc).unmatched =
        acc.unmatched ++ (chunks.map
          (fun b => (matchMessagesT t b api).unmatched)).flatten) := by
  intro chunks
  induction chunks with
  | nil => intro acc; simp
  | cons ch rest ih =>
    intro acc
    rw [List.foldl_cons]
    obtain ⟨ihm, ihu⟩ := ih (mergeResults acc (matchMessagesT t ch api))
    constructor
    · rw [ihm]
      simp [mergeResults, List.append_assoc]
    · rw [ihu]
      simp [mergeResults, List.append_assoc]

/-- `batchMatchMessagesT` lists are the concatenated per-batch lists. -/
theorem batchMatchMessagesT_lists (bs : Nat) (dbs : List DbMsg)
    (api : List ApiMsg) :
    (batchMatchMessagesT t bs dbs api).matched =
      ((chunksF dbs.length bs dbs).map
        (fun b => (matchMessagesT t b api).matched)).flatten ∧
    (batchMatchMessagesT t bs dbs api).unmatched =
      ((chunksF dbs.length bs dbs).map
        (fun b => (matchMessagesT t b api).unmatched)).flatten := by
  obtain ⟨hm, hu⟩ := batchFold_lists (t := t) api (chunksF dbs.length bs dbs)
    { matched := [], unmatched := [],
      statistics :=
        { totalDbMessages := dbs.length
          totalApiMessages := api.length
          matchedCount := 0, unmatchedCount := 0
          averageConfidencePct := 0
          firstMessageStats := { total := 0, matched := 0, unmatched := 0 } } }
  exact ⟨by rw [batchMatchMessagesT, batchMatchFuel, hm]; simp,
    by rw [batchMatchMessagesT, batchMatchFuel, hu]; simp⟩

/-- Whole-run totality: the merged outcomes carry exactly the internal
records, once each, when `batchSize ≥ 1`. -/
theorem batchMatchMessagesT_outcomes {bs : Nat} (hbs : 1 ≤ bs)
    (dbs : List DbMsg) (api : List ApiMsg) :
    (((batchMatchMessagesT t bs dbs api).matched.map (·.db) : Multiset DbMsg) +
      ((batchMatchMessagesT t bs dbs api).unmatched.map (·.db) : Multiset DbMsg)) =
      (dbs : Multiset DbMsg) := by
  obtain ⟨hm, hu⟩ := batchMatchMessagesT_lists (t := t) bs dbs api
  rw [hm, hu]
  have hjoin : (chunksF dbs.length bs dbs).flatten = dbs := chunksF_join hbs _ _ le_rfl
  clear hm hu
  conv_rhs => rw [← hjoin]
  generalize chunksF dbs.length bs dbs = chunks
  induction chunks with
  | nil => simp
  | cons ch rest ih =>
    simp only [List.map_cons, List.flatten_cons, List.map_append,
      ← Multiset.coe_add]
    have := matchMessagesT_outcomes (t := t) ch api
    calc ((matchMessagesT t ch api).matched.map (·.db) : Multiset DbMsg) +
          ↑((rest.map (fun b => (matchMessagesT t b api).matched)).flatten.map (·.db)) +
          (((matchMessagesT t ch api).unmatched.map (·.db) : Multiset DbMsg) +
            ↑((rest.map (fun b => (matchMessagesT t b api).unmatched)).flatten.map (·.db)))
        = (((matchMessagesT t ch api).matched.map (·.db) : Multiset DbMsg) +
            ↑((matchMessagesT t ch api).unmatched.map (·.db))) +
          (↑((rest.map (fun b => (matchMessagesT t b api).matched)).flatten.map (·.db)) +
            ↑((rest.map (fun b => (matchMessagesT t b api).unmatched)).flatten.map (·.db))) := by
          abel
      _ = (ch : Multiset DbMsg) + ↑rest.flatten := by rw [this, ih]
      _ = ((ch ++ rest.flatten : List DbMsg) : Multiset DbMsg) := by
          rw [← Multiset.coe_add]

end BatchLemmas

/-- Whole-run count: merged `matched` plus `unmatched` lengths sum to the
internal record count when `batchSize ≥ 1`. -/
theorem batchMatchMessagesT_length {t : ℚ} {bs : Nat} (hbs : 1 ≤ bs)
    (dbs : List DbMsg) (api : List ApiMsg) :
    (batchMatchMessagesT t bs dbs api).matched.length +
      (batchMatchMessagesT t bs dbs api).unmatched.length = dbs.length := by
  have h := congrArg Multiset.card
    (batchMatchMessagesT_outcomes (t := t) hbs dbs api)
  simpa using h

/-- An internal record used in the concrete scenarios: an agent reply
reading `"hello"` recorded at time 0. -/
def dbHello : DbMsg :=
  { id := 0
    message := some "hello"
    phone_number := "p1"
    sent_date := 0
    role := "assistant"
    type_of_message := "reply" }

/-- An external record reading `"hellx"` at time 5: temporally eligible
for `dbHello` and similar to it with score 3/4, below the 0.9
threshold. -/
def apiHellx : ApiMsg :=
  { message := some "hellx"
    body := none
    timestamp := some 5
    sent_date := 0 }

/-- Two internal records with the same text, for the cross-batch
double-consumption scenario (C2) and the totality witness (C3). -/
def dbRep1 : DbMsg := { dbHello with id := 1 }

/-- Second copy; see `dbRep1`. -/
def dbRep2 : DbMsg := { dbHello with id := 2 }

/-- An external record identical in text to `dbHello`, eligible for
both `dbRep1` and `dbRep2`. -/
def apiHello : ApiMsg := { apiHellx with message := some "hello" }

/-- An internal record recorded at time 10, strictly after `apiEarly`. -/
def dbLate : DbMsg := { dbHello with sent_date := 10 }

/-- An external record at time 5, strictly before `dbLate`. -/
def apiEarly : ApiMsg := { apiHellx with message := some "hello" }

/-- Internal record whose text scores exactly 0.9 against `api8`. -/
def db8 : DbMsg := { dbHello with message := some "abcdefghijk" }

/-- External record for `db8`: same text with the last letter changed,
Dice score 18/20 = 0.9. -/
def api8 : ApiMsg := { apiHellx with message := some "abcdefghijx" }

/-- C1: at a failing input — one internal record `"hello"` and one
temporally eligible external candidate `"hellx"` with similarity
3/4 ∈ (0, threshold) — the code emits an Unmatched outcome carrying best
score 0 and the no-candidate reason, because line 89 only records scores
that already reach the threshold; the claim (and spec §4.3 step 5)
requires best score 3/4 with reason `below_threshold`.  The
`'Below similarity threshold'` branch of line 132 is unreachable. -/
theorem C1_unmatched_score_eval :
    (matchMessages [dbHello] [apiHellx]).unmatched =
      [⟨dbHello, 0, "No matching message found"⟩] ∧
    (matchMessages [dbHello] [apiHellx]).matched = [] ∧
    dbHello.sent_date ≤ apiTs apiHellx ∧
    calculateSimilarity dbHello.message
      (jsOrStr apiHellx.message apiHellx.body) = mkRat 3 4 ∧
    (0 : ℚ) < mkRat 3 4 ∧ mkRat 3 4 < SIMILARITY_THRESHOLD := by
  refine ⟨by decide, by decide, by decide, by decide, by decide, by decide⟩

/-- C2: within one batch every external record is consumed by at most one
Matched outcome (the matched indices are pairwise distinct, for every
threshold, batch and pool); across batches of one run the same external
record can be matched repeatedly — with batch size 1, two identical
internal records both match the single external record 0. -/
theorem C2_per_batch_consumption_cross_batch_reuse :
    (∀ (t : ℚ) (dbs : List DbMsg) (api : List ApiMsg),
      ((matchMessagesT t dbs api).matched.map (·.apiIndex)).Nodup) ∧
    ((batchMatchMessagesT SIMILARITY_THRESHOLD 1 [dbRep1, dbRep2]
      [apiHello]).matched.map (·.apiIndex)) = [0, 0] :=
  ⟨fun _ dbs api => matchMessagesT_nodup dbs api, by decide⟩

/-- C3: every internal record appears in exactly one outcome — the
multiset of outcome records equals the input batch and the counts sum to
the batch size — both per batch and for the merged whole-run result
(`batchSize ≥ 1`). -/
theorem C3_every_record_exactly_one_outcome (t : ℚ) (dbs : List DbMsg)
    (api : List ApiMsg) (bs : Nat) (hbs : 1 ≤ bs) :
    ((((matchMessagesT t dbs api).matched.map (·.db) : Multiset DbMsg) +
        ((matchMessagesT t dbs api).unmatched.map (·.db) : Multiset DbMsg)) =
        (dbs : Multiset DbMsg) ∧
      (matchMessagesT t dbs api).matched.length +
        (matchMessagesT t dbs api).unmatched.length = dbs.length) ∧
    ((((batchMatchMessagesT t bs dbs api).matched.map (·.db) : Multiset DbMsg) +
        ((batchMatchMessagesT t bs dbs api).unmatched.map (·.db) : Multiset DbMsg)) =
        (dbs : Multiset DbMsg) ∧
      (batchMatchMessagesT t bs dbs api).matched.length +
        (batchMatchMessagesT t bs dbs api).unmatched.length = dbs.length) :=
  ⟨⟨matchMessagesT_outcomes dbs api, matchMessagesT_length dbs api⟩,
    ⟨batchMatchMessagesT_outcomes hbs dbs api,
      batchMatchMessagesT_length hbs dbs api⟩⟩

/-- Witness for C3 at a concrete input (two records, one candidate, batch
size 1). -/
theorem C3_every_record_exactly_one_outcome_witness :
    1 ≤ 1 ∧
    (((((matchMessagesT SIMILARITY_THRESHOLD [dbRep1, dbRep2]
          [apiHello]).matched.map (·.db) : Multiset DbMsg) +
        ((matchMessagesT SIMILARITY_THRESHOLD [dbRep1, dbRep2]
          [apiHello]).unmatched.map (·.db) : Multiset DbMsg)) =
        ([dbRep1, dbRep2] : Multiset DbMsg) ∧
      (matchMessagesT SIMILARITY_THRESHOLD [dbRep1, dbRep2]
          [apiHello]).matched.length +
        (matchMessagesT SIMILARITY_THRESHOLD [dbRep1, dbRep2]
          [apiHello]).unmatched.length = [dbRep1, dbRep2].length) ∧
    ((((batchMatchMessagesT SIMILARITY_THRESHOLD 1 [dbRep1, dbRep2]
          [apiHello]).matched.map (·.db) : Multiset DbMsg) +
        ((batchMatchMessagesT SIMILARITY_THRESHOLD 1 [dbRep1, dbRep2]
          [apiHello]).unmatched.map (·.db) : Multiset DbMsg)) =
        ([dbRep1, dbRep2] : Multiset DbMsg) ∧
      (batchMatchMessagesT SIMILARITY_THRESHOLD 1 [dbRep1, dbRep2]
          [apiHello]).matched.length +
        (batchMatchMessagesT SIMILARITY_THRESHOLD 1 [dbRep1, dbRep2]
          [apiHello]).unmatched.length = [dbRep1, dbRep2].length)) :=
  ⟨Nat.le_refl 1,
    C3_every_record_exactly_one_outcome SIMILARITY_THRESHOLD
      [dbRep1, dbRep2] [apiHello] 1 (Nat.le_refl 1)⟩

/-- C5: no Matched outcome pairs an internal record with a strictly
earlier external record (equal timestamps stay eligible), and an internal
record strictly after the whole pool is always Unmatched with reason
`no_candidate` (`'No matching message found'`) and best score 0. -/
theorem C5_temporal_constraint (t : ℚ) (dbs : List DbMsg)
    (api : List ApiMsg) :
    (∀ m ∈ (matchMessagesT t dbs api).matched,
      m.db.sent_date ≤ m.apiTimestamp) ∧
    (∀ d ∈ dbs, (∀ a ∈ api, apiTs a < d.sent_date) →
      ∃ u ∈ (matchMessagesT t dbs api).unmatched,
        u.db = d ∧ u.bestMatchScore = 0 ∧
        u.reason = "No matching message found") :=
  ⟨matchMessagesT_temporal dbs api,
    fun d hd h => matchMessagesT_all_early dbs api d hd h⟩

/-- Witness for C5: a record at time 10 against a pool whose only record
is at time 5. -/
theorem C5_temporal_constraint_witness :
    dbLate ∈ [dbLate] ∧ (∀ a ∈ [apiEarly], apiTs a < dbLate.sent_date) ∧
    ∃ u ∈ (matchMessagesT SIMILARITY_THRESHOLD [dbLate]
        [apiEarly]).unmatched,
      u.db = dbLate ∧ u.bestMatchScore = 0 ∧
      u.reason = "No matching message found" :=
  ⟨by decide, by decide,
    (C5_temporal_constraint SIMILARITY_THRESHOLD [dbLate] [apiEarly]).2
      dbLate (by decide) (by decide)⟩

/-- C8: at a failing input the caller configures `matchingThreshold` 0.95
but the service never forwards it to the matcher, which matches at the
module constant 0.9: a pair with similarity exactly 0.9 becomes a Matched
outcome whose confidence is below the caller's threshold, against the
claim (and spec invariant §3). -/
theorem C8_caller_threshold_ignored :
    ((verifyMessagesCore { matchingThreshold := mkRat 95 100 } [db8]
      [api8]).1.matched.map (·.confidenceScore)) = [mkRat 9 10] ∧
    mkRat 9 10 <
      ({ matchingThreshold := mkRat 95 100 } : VerifyParams).matchingThreshold := by
  refine ⟨by decide, by decide⟩

/-- C4: the report's match rate at a match result with zero internal
records: the code computes `(0/0*100).toFixed(2)+'%'`, i.e. `"NaN%"`, not
the `"0%"` the claim requires (the guard exists for the first-message
unmatched rate, lines 259-261, but not for the match rate, line 253). -/
theorem C4_match_rate_nan_at_zero_records :
    (verifyMessagesCore { matchingThreshold := mkRat 9 10 } []
      [apiHellx]).1.statistics.totalDbMessages = 0 ∧
    (verifyMessagesCore { matchingThreshold := mkRat 9 10 } []
      [apiHellx]).2.matchRate = "NaN%" ∧
    matchRateString 0 0 = "NaN%" ∧
    unmatchedRateString 0 0 = "0%" ∧
    ("NaN%" : String) ≠ "0%" := by
  refine ⟨by decide, by decide, by decide, by decide, by decide⟩

/-- C10: the batch loop of `batchMatchMessages` terminates when
`batchSize ≥ 1` — `length` units of fuel complete it and any larger fuel
gives the same slicing and the same merged result — and it processes each
internal record exactly once, in order (the slices concatenate back to
the input). -/
theorem C10_batch_loop_terminates (t : ℚ) (dbs : List DbMsg)
    (api : List ApiMsg) (bs fuel : Nat) (hbs : 1 ≤ bs)
    (hfuel : dbs.length ≤ fuel) :
    chunksF fuel bs dbs = chunksF dbs.length bs dbs ∧
    (chunksF fuel bs dbs).flatten = dbs ∧
    batchMatchFuel t bs fuel dbs api = batchMatchMessagesT t bs dbs api := by
  have h1 := chunksF_stable hbs fuel dbs dbs.length hfuel le_rfl
  refine ⟨h1, chunksF_join hbs fuel dbs hfuel, ?_⟩
  rw [batchMatchMessagesT]
  unfold batchMatchFuel
  rw [h1]

/-- Witness for C10 at a concrete input: two records, batch size 1, fuel
5. -/
theorem C10_batch_loop_terminates_witness :
    1 ≤ 1 ∧ [dbRep1, dbRep2].length ≤ 5 ∧
    (chunksF 5 1 [dbRep1, dbRep2] =
        chunksF [dbRep1, dbRep2].length 1 [dbRep1, dbRep2] ∧
      (chunksF 5 1 [dbRep1, dbRep2]).flatten = [dbRep1, dbRep2] ∧
      batchMatchFuel SIMILARITY_THRESHOLD 1 5 [dbRep1, dbRep2] [apiHello] =
        batchMatchMessagesT SIMILARITY_THRESHOLD 1 [dbRep1, dbRep2]
          [apiHello]) :=
  ⟨Nat.le_refl 1, by decide,
    C10_batch_loop_terminates SIMILARITY_THRESHOLD [dbRep1, dbRep2]
      [apiHello] 1 5 (Nat.le_refl 1) (by decide)⟩

/-- C7 counterexample: `normalizeMessage(null)` does not return the empty
string — the body immediately calls `null.toLowerCase()`, which throws a
`TypeError` (modelled as `none`), so the normalizer is not total on null
input. -/
theorem C7_counterexample_null_throws :
    normalizeMessageJS none = none ∧ normalizeMessageJS none ≠ some "" :=
  ⟨rfl, by decide⟩

/-- C7 amended: the normalizer is total on (non-null) strings — for every
string it returns a string, and the empty string normalizes to the empty
string; a null argument makes the call throw instead of returning (its
only caller, `calculateSimilarity`, guards nulls away before calling
it). -/
theorem C7_total_on_strings :
    (∀ s : String, ∃ r : String, normalizeMessageJS (some s) = some r) ∧
    normalizeMessage "" = "" ∧ normalizeMessageJS none = none :=
  ⟨fun s => ⟨normalizeMessage s, rfl⟩, by decide, rfl⟩

/-- The claim's hypothesis, formalized: two character lists share a common
bigram when some adjacent pair of the first occurs among the adjacent
pairs of the second. -/
def sharesCommonBigram (a b : List Char) : Bool :=
  (bigrams a).any (fun p => decide (p ∈ bigrams b))

/-- No bigram of the second list occurring in the first makes the Dice
intersection empty. -/
theorem interCount_zero :
    ∀ (l2 l1 : List (Char × Char)), (∀ q ∈ l2, q ∉ l1) →
      interCount l1 l2 = 0 := by
  intro l2
  induction l2 with
  | nil => intro l1 _; rfl
  | cons b rest ih =>
    intro l1 h
    rw [interCount, if_neg (h b (List.mem_cons_self _ _))]
    exact ih l1 (fun q hq => h q (List.mem_cons_of_mem _ hq))

/-- C9 counterexample: two pairs of non-null, non-empty strings whose
normalized forms share no common character bigram yet score nonzero — two
identical one-letter strings (no bigrams at all, score 1 by the
identical-strings rule), and `"a b"` vs `"ab c"` (the scorer removes
whitespace before forming bigrams, so `"ab"` and `"abc"` share `ab`
although the normalized forms share nothing; score 2/3). -/
theorem C9_counterexample :
    (sharesCommonBigram (normalizeMessage "a").data
        (normalizeMessage "a").data = false ∧
      calculateSimilarity (some "a") (some "a") = 1) ∧
    (sharesCommonBigram (normalizeMessage "a b").data
        (normalizeMessage "ab c").data = false ∧
      calculateSimilarity (some "a b") (some "ab c") = mkRat 2 3) ∧
    (1 : ℚ) ≠ 0 ∧ mkRat 2 3 ≠ 0 := by
  refine ⟨⟨by decide, by decide⟩, ⟨by decide, by decide⟩, by decide, by decide⟩

/-- C9 amended: for non-null, non-empty inputs whose normalized forms,
after removal of all whitespace, are distinct and share no common
character bigram, the similarity scorer returns 0. -/
theorem C9_no_shared_bigram_scores_zero (a b : String) (ha : a ≠ "")
    (hb : b ≠ "")
    (hne : stripAllWS (normalizeMessage a).data ≠
      stripAllWS (normalizeMessage b).data)
    (hnb : sharesCommonBigram (stripAllWS (normalizeMessage a).data)
      (stripAllWS (normalizeMessage b).data) = false) :
    calculateSimilarity (some a) (some b) = 0 := by
  have hg : ¬(a = "" ∨ b = "") := by
    rintro (h | h)
    · exact ha h
    · exact hb h
  show (if a = "" ∨ b = "" then 0
    else compareTwoStrings (normalizeMessage a) (normalizeMessage b)) = 0
  rw [if_neg hg]
  show (if stripAllWS (normalizeMessage a).data =
      stripAllWS (normalizeMessage b).data then (1 : ℚ)
    else if (stripAllWS (normalizeMessage a).data).length < 2 ∨
        (stripAllWS (normalizeMessage b).data).length < 2 then 0
    else mkRat (2 * (interCount
        (bigrams (stripAllWS (normalizeMessage a).data))
        (bigrams (stripAllWS (normalizeMessage b).data)) : Int))
      ((stripAllWS (normalizeMessage a).data).length +
        (stripAllWS (normalizeMessage b).data).length - 2)) = 0
  rw [if_neg hne]
  by_cases hlen : (stripAllWS (normalizeMessage a).data).length < 2 ∨
      (stripAllWS (normalizeMessage b).data).length < 2
  · rw [if_pos hlen]
  · rw [if_neg hlen]
    have hq : ∀ q ∈ bigrams (stripAllWS (normalizeMessage b).data),
        q ∉ bigrams (stripAllWS (normalizeMessage a).data) := by
      intro q hq hmem
      have := List.any_eq_false.mp hnb q hmem
      simp only [decide_eq_true_eq] at this
      exact this hq
    rw [interCount_zero _ _ hq]
    simp

/-- Witness for C9 at `"xy"` and `"yz"`: distinct, no shared bigram,
score 0. -/
theorem C9_no_shared_bigram_scores_zero_witness :
    ("xy" : String) ≠ "" ∧ ("yz" : String) ≠ "" ∧
    stripAllWS (normalizeMessage "xy").data ≠
      stripAllWS (normalizeMessage "yz").data ∧
    sharesCommonBigram (stripAllWS (normalizeMessage "xy").data)
      (stripAllWS (normalizeMessage "yz").data) = false ∧
    calculateSimilarity (some "xy") (some "yz") = 0 :=
  ⟨by decide, by decide, by decide, by decide,
    C9_no_shared_bigram_scores_zero "xy" "yz" (by decide) (by decide)
      (by decide) (by decide)⟩

section NormalizeLemmas

/-- Adjacent characters are not both whitespace: the shape left by a
whitespace-collapsing pass. -/
def noWSpair (a b : Char) : Prop := ¬(isWS a = true ∧ isWS b = true)

theorem collapse_mem :
    ∀ (l : List Char) (b : Bool) (c : Char),
      c ∈ collapseAux b l → c = ' ' ∨ c ∈ l := by
  intro l
  induction l with
  | nil => intro b c h; cases h
  | cons x xs ih =>
    intro b c h
    rw [collapseAux] at h
    by_cases hx : isWS x
    · rw [if_pos hx] at h
      cases b with
      | true =>
        simp only [if_pos rfl] at h
        rcases ih true c h with h | h
        · exact Or.inl h
        · exact Or.inr (List.mem_cons_of_mem _ h)
      | false =>
        simp only [Bool.false_eq_true, if_neg] at h
        rcases List.mem_cons.mp h with rfl | h
        · exact Or.inl rfl
        · rcases ih true c h with h | h
          · exact Or.inl h
          · exact Or.inr (List.mem_cons_of_mem _ h)
    · rw [if_neg hx] at h
      rcases List.mem_cons.mp h with rfl | h
      · exact Or.inr (List.mem_cons_self _ _)
      · rcases ih false c h with h | h
        · exact Or.inl h
        · exact Or.inr (List.mem_cons_of_mem _ h)

theorem collapse_ws :
    ∀ (l : List Char) (b : Bool) (c : Char),
      c ∈ collapseAux b l → isWS c = true → c = ' ' := by
  intro l
  induction l with
  | nil => intro b c h; cases h
  | cons x xs ih =>
    intro b c h hws
    rw [collapseAux] at h
    by_cases hx : isWS x
    · rw [if_pos hx] at h
      cases b with
      | true =>
        simp only [if_pos rfl] at h
        exact ih true c h hws
      | false =>
        simp only [Bool.false_eq_true, if_neg] at h
        rcases List.mem_cons.mp h with rfl | h
        · rfl
        · exact ih true c h hws
    · rw [if_neg hx] at h
      rcases List.mem_cons.mp h with rfl | h
      · exact absurd hws (by simpa using hx)
      · exact ih false c h hws

theorem collapse_head_true :
    ∀ (l : List Char) (c : Char),
      (collapseAux true l).head? = some c → isWS c = false := by
  intro l
  induction l with
  | nil => intro c h; cases h
  | cons x xs ih =>
    intro c h
    rw [collapseAux] at h
    by_cases hx : isWS x
    · rw [if_pos hx, if_pos rfl] at h
      exact ih c h
    · rw [if_neg hx] at h
      simp only [List.head?_cons, Option.some.injEq] at h
      subst h
      simpa using hx

theorem collapse_chain :
    ∀ (l : List Char) (b : Bool), List.Chain' noWSpair (collapseAux b l) := by
  intro l
  induction l with
  | nil => intro b; rw [collapseAux]; exact List.chain'_nil
  | cons x xs ih =>
    intro b
    rw [collapseAux]
    by_cases hx : isWS x
    · rw [if_pos hx]
      cases b with
      | true => simpa using ih true
      | false =>
        simp only [Bool.false_eq_true, if_neg]
        refine List.chain'_cons'.mpr ⟨?_, ih true⟩
        intro y hy
        have : isWS y = false := collapse_head_true xs y hy
        intro hc
        rw [this] at hc
        exact Bool.false_ne_true hc.2
    · rw [if_neg hx]
      refine List.chain'_cons'.mpr ⟨?_, ih false⟩
      intro y _
      intro hc
      exact hx hc.1

theorem collapse_fix :
    ∀ (l : List Char) (b : Bool),
      (∀ c ∈ l, isWS c = true → c = ' ') →
      List.Chain' noWSpair l →
      (b = true → ∀ c, l.head? = some c → isWS c = false) →
      collapseAux b l = l := by
  intro l
  induction l with
  | nil => intro b _ _ _; rw [collapseAux]
  | cons x xs ih =>
    intro b hws hch hhd
    rw [collapseAux]
    obtain ⟨hxy, hch'⟩ := List.chain'_cons'.mp hch
    by_cases hx : isWS x
    · rw [if_pos hx]
      cases b with
      | true =>
        exact absurd (hhd rfl x (by simp)) (by simpa using hx)
      | false =>
        rw [if_neg Bool.false_ne_true]
        have hxsp : x = ' ' := hws x (List.mem_cons_self _ _) hx
        rw [← hxsp]
        congr 1
        refine ih true (fun c hc hwc => hws c (List.mem_cons_of_mem _ hc) hwc)
          hch' ?_
        intro _ c hc
        have hn := hxy c (Option.mem_def.mpr hc)
        cases hcw : isWS c
        · rfl
        · exact absurd ⟨hx, hcw⟩ hn
    · rw [if_neg hx]
      congr 1
      exact ih false (fun c hc hwc => hws c (List.mem_cons_of_mem _ hc) hwc)
        hch' (by intro h; cases h)

end NormalizeLemmas

section TrimLemmas

variable {p : Char → Bool}

theorem head_dropWhile_false :
    ∀ (l : List Char) (c : Char),
      (l.dropWhile p).head? = some c → p c = false := by
  intro l
  induction l with
  | nil => intro c h; cases h
  | cons x xs ih =>
    intro c h
    rw [List.dropWhile_cons] at h
    by_cases hx : p x
    · rw [if_pos hx] at h
      exact ih c h
    · rw [if_neg hx] at h
      simp only [List.head?_cons, Option.some.injEq] at h
      subst h
      simpa using hx

theorem dropWhile_eq_self_of_head
    (l : List Char) (h : ∀ c, l.head? = some c → p c = false) :
    l.dropWhile p = l := by
  cases l with
  | nil => rfl
  | cons x xs =>
    rw [List.dropWhile_cons, if_neg]
    simp [h x rfl]

theorem getLast_dropWhile (l : List Char)
    (h : l.dropWhile p ≠ []) :
    (l.dropWhile p).getLast? = l.getLast? := by
  obtain ⟨pre, hpre⟩ := List.dropWhile_suffix (l := l) p
  conv_rhs => rw [← hpre]
  exact (List.getLast?_append_of_ne_nil pre h).symm

theorem trim_eq_self (l : List Char)
    (hh : ∀ c, l.head? = some c → isWS c = false)
    (hl : ∀ c, l.getLast? = some c → isWS c = false) :
    trimWS l = l := by
  rw [trimWS, dropWhile_eq_self_of_head l hh,
    dropWhile_eq_self_of_head l.reverse
      (fun c hc => hl c (by rwa [List.head?_reverse] at hc)),
    List.reverse_reverse]

theorem trim_mem {c : Char} (l : List Char) (h : c ∈ trimWS l) : c ∈ l := by
  rw [trimWS, List.mem_reverse] at h
  have h1 := (List.dropWhile_suffix (l := (l.dropWhile isWS).reverse) isWS).subset h
  rw [List.mem_reverse] at h1
  exact (List.dropWhile_suffix (l := l) isWS).subset h1

theorem trim_head {c : Char} (l : List Char)
    (h : (trimWS l).head? = some c) : isWS c = false := by
  rw [trimWS, List.head?_reverse] at h
  have hne : (l.dropWhile isWS).reverse.dropWhile isWS ≠ [] := by
    intro he
    rw [he] at h
    cases h
  rw [getLast_dropWhile _ hne, List.getLast?_reverse] at h
  exact head_dropWhile_false l c h

theorem trim_getLast {c : Char} (l : List Char)
    (h : (trimWS l).getLast? = some c) : isWS c = false := by
  rw [trimWS, List.getLast?_reverse] at h
  exact head_dropWhile_false _ c h

theorem chain_dropWhile {R : Char → Char → Prop} (l : List Char)
    (h : List.Chain' R l) : List.Chain' R (l.dropWhile p) :=
  h.suffix (List.dropWhile_suffix p)

theorem chain_reverse_noWS (l : List Char)
    (h : List.Chain' noWSpair l) : List.Chain' noWSpair l.reverse := by
  rw [List.chain'_reverse]
  exact h.imp (fun a b hab => fun hc => hab ⟨hc.2, hc.1⟩)

theorem trim_chain (l : List Char) (h : List.Chain' noWSpair l) :
    List.Chain' noWSpair (trimWS l) :=
  chain_reverse_noWS _ (chain_dropWhile _ (chain_reverse_noWS _
    (chain_dropWhile _ h)))

end TrimLemmas

section NormListFacts

theorem map_toLower_eq_self (l : List Char)
    (h : ∀ c ∈ l, c.toLower = c) : l.map Char.toLower = l := by
  induction l with
  | nil => rfl
  | cons x xs ih =>
    rw [List.map_cons, h x (List.mem_cons_self _ _),
      ih (fun c hc => h c (List.mem_cons_of_mem _ hc))]

theorem stripOther_eq_self (l : List Char)
    (h : ∀ c ∈ l, (isWordChar c || isWS c) = true) : stripOther l = l :=
  List.filter_eq_self.mpr h

theorem mem_normList_filterPred {c : Char} (l : List Char)
    (h : c ∈ normList l) : (isWordChar c || isWS c) = true := by
  rw [normList] at h
  have h1 := trim_mem _ h
  exact (List.mem_filter.mp h1).2

theorem mem_normList_collapse {c : Char} (l : List Char)
    (h : c ∈ normList l) : c ∈ collapseWS (l.map Char.toLower) := by
  rw [normList] at h
  exact (List.mem_filter.mp (trim_mem _ h)).1

theorem mem_normList_ws {c : Char} (l : List Char)
    (h : c ∈ normList l) (hws : isWS c = true) : c = ' ' :=
  collapse_ws _ _ _ (mem_normList_collapse l h) hws

theorem mem_normList_lower {c : Char} (l : List Char)
    (h : c ∈ normList l) : c.toLower = c := by
  rcases collapse_mem _ _ _ (mem_normList_collapse l h) with rfl | hm
  · decide
  · obtain ⟨d, _, rfl⟩ := List.mem_map.mp hm
    exact toLower_toLower d

/-- `normalizeMessage` is the identity on lists that are already fully
normalized: lower-case, only word characters and single spaces, no
leading or trailing space. -/
theorem normList_eq_self (l : List Char)
    (hlow : ∀ c ∈ l, c.toLower = c)
    (hws : ∀ c ∈ l, isWS c = true → c = ' ')
    (hword : ∀ c ∈ l, (isWordChar c || isWS c) = true)
    (hch : List.Chain' noWSpair l)
    (hh : ∀ c, l.head? = some c → isWS c = false)
    (hl : ∀ c, l.getLast? = some c → isWS c = false) :
    normList l = l := by
  rw [normList, map_toLower_eq_self l hlow, collapseWS,
    collapse_fix l false hws hch (by intro h; cases h),
    stripOther_eq_self l hword, trim_eq_self l hh hl]

/-- The double application of the normalizer is a fixpoint: a third
application changes nothing.  (A single application need not be a
fixpoint: stripping punctuation after collapsing whitespace can create
new double spaces; the second pass collapses them and everything then
stays put.) -/
theorem normList_third_eq_second (d : List Char) :
    normList (normList (normList d)) = normList (normList d) := by
  set s1 := normList d with hs1
  have hlow1 : ∀ c ∈ s1, c.toLower = c := fun c hc => mem_normList_lower d hc
  have hword1 : ∀ c ∈ s1, (isWordChar c || isWS c) = true :=
    fun c hc => mem_normList_filterPred d hc
  have hs2 : normList s1 = trimWS (collapseWS s1) := by
    rw [normList, map_toLower_eq_self s1 hlow1, stripOther_eq_self]
    intro c hc
    rcases collapse_mem _ _ _ hc with rfl | hm
    · simp [isWS]
    · exact hword1 c hm
  set s2 := normList s1 with hs2def
  have hch2 : List.Chain' noWSpair s2 := by
    rw [hs2]
    exact trim_chain _ (collapse_chain _ _)
  refine normList_eq_self s2
    (fun c hc => mem_normList_lower s1 hc)
    (fun c hc => mem_normList_ws s1 hc)
    (fun c hc => mem_normList_filterPred s1 hc)
    hch2 ?_ ?_
  · intro c hc
    rw [hs2] at hc
    exact trim_head _ hc
  · intro c hc
    rw [hs2] at hc
    exact trim_getLast _ hc

end NormListFacts

/-- C6 counterexample: normalization is not idempotent.  On `"a . b"` the
first pass collapses whitespace before stripping the dot, leaving the
double space `"a  b"`; normalizing again collapses it to `"a b"`. -/
theorem C6_counterexample_not_idempotent :
    normalizeMessage "a . b" = "a  b" ∧
    normalizeMessage (normalizeMessage "a . b") = "a b" ∧
    normalizeMessage (normalizeMessage "a . b") ≠ normalizeMessage "a . b" := by
  refine ⟨by decide, by decide, by decide⟩

/-- C6 amended: two passes of the normalizer reach a fixpoint — for every
string `x`, `normalize(normalize(normalize(x))) =
normalize(normalize(x))` (idempotence holds from the second application
on; the single application fails only by leaving double spaces where
punctuation sat between whitespace). -/
theorem C6_double_normalize_fixpoint (s : String) :
    normalizeMessage (normalizeMessage (normalizeMessage s)) =
      normalizeMessage (normalizeMessage s) :=
  congrArg String.mk (normList_third_eq_second s.data)
